import Mathlib

/-!
Verification development for the prefixed logrus text formatter
(`formatter.go`, package `prefixed`).

The Go source is embedded shallowly:

* `logrus.Entry` becomes `Entry`; its `Data` map (`map[string]interface{}`)
  becomes an association list `Fields` over a closed value type `Value`
  covering the value shapes the formatter distinguishes (strings, errors,
  and "other" values rendered by `fmt`'s default verbs: here integers,
  booleans and the nil interface).
* `time.Time` together with its `Format` method is modelled as the function
  `Entry.Time : String → String` from a layout string to the rendered text.
* The process-wide ambient state (`ansi` color resolver, `logrus.IsTerminal`,
  `runtime.GOOS`) is an explicit `Env` record; the value that `miniTS()`
  returns at the moment of the call (whole seconds elapsed since
  `baseTimestamp`) is an explicit `now : Nat` argument of `Format`.
* Go's in-place mutation of `entry.Data` by `prefixFieldClashes` becomes a
  pure function returning the updated association list; `Format` uses the
  updated list exactly where the Go code reads the mutated map.
* A Go `panic` (the nil-pointer dereference of `f.Colors` inside
  `printColored`) is modelled by returning `none`.
* The per-call randomized iteration order of the Go map `range` loop that
  collects keys is represented by the order of the `Data` association list:
  one list order stands for one iteration draw, and permuted lists stand for
  the same map observed by different calls.
-/

/-- Field values stored in `entry.Data` (Go `interface{}`), restricted to the
shapes the formatter's `switch` distinguishes: `string`, `error`, and default
values (modelled by `int`, `bool`, and the nil interface). -/
inductive Value where
  | str (s : String)
  | err (msg : String)
  | int (n : Int)
  | bool (b : Bool)
  | nil
deriving DecidableEq

/-- The `entry.Data` map: an association list from field names to values. -/
abbrev Fields := List (String × Value)

/-- The logrus severity levels (`logrus.Level`, a `uint8`); `other n` stands
for a numeric level outside the six named constants. -/
inductive Level where
  | panic
  | fatal
  | error
  | warn
  | info
  | debug
  | other (n : Nat)
deriving DecidableEq

/-- The `Level.String()` method of logrus. -/
def Level.string : Level → String
  | .panic => "panic"
  | .fatal => "fatal"
  | .error => "error"
  | .warn => "warning"
  | .info => "info"
  | .debug => "debug"
  | .other _ => "unknown"

/-- The `Colors` struct of the formatter.  The source names the fifth field
`Prefix`; it is renamed `PrefixColor` here because `prefix` cannot be used as
an identifier in this development. -/
structure Colors where
  Debug : String
  Info : String
  Warn : String
  Error : String
  PrefixColor : String
  Default : String

/-- The `TextFormatter` configuration struct.  `Colors` is a Go pointer and
may be nil, hence `Option`. -/
structure TextFormatter where
  ForceColors : Bool
  DisableColors : Bool
  DisableTimestamp : Bool
  ShortTimestamp : Bool
  TimestampFormat : String
  DisableSorting : Bool
  Colors : Option Colors

/-- Ambient process state and external collaborators: the cached
`logrus.IsTerminal()` result, `runtime.GOOS`, and the `ansi` package
(`ansi.ColorCode` plus the named color constants used by the formatter). -/
structure Env where
  isTerminal : Bool
  goos : String
  colorCode : String → String
  reset : String
  white : String
  blue : String
  yellow : String
  red : String
  lightBlack : String

/-- A log record (`logrus.Entry`): `Time` is the record timestamp exposed via
its `Format` method (layout string to rendered text). -/
structure Entry where
  Time : String → String
  Level : Level
  Message : String
  Data : Fields

/-- Go map read `data[key]`: first binding of `key`, if any. -/
def lookupField : Fields → String → Option Value
  | [], _ => none
  | p :: rest, key => if p.1 = key then some p.2 else lookupField rest key

/-- Go map read where the key is known to be present; absent keys yield the
nil interface value (which is what a Go map read returns for a missing key). -/
def lookupD (data : Fields) (key : String) : Value :=
  (lookupField data key).getD Value.nil

/-- Go map write `data[key] = v`: replace the binding if present, else add
one. -/
def setKey : Fields → String → Value → Fields
  | [], key, v => [(key, v)]
  | p :: rest, key, v => if p.1 = key then (key, v) :: rest else p :: setKey rest key v

/-- One clash step, the Go pattern `_, ok := data[src]; if ok { data[dst] =
data[src] }`. -/
def copyIfPresent (data : Fields) (src dst : String) : Fields :=
  match lookupField data src with
  | some v => setKey data dst v
  | none => data

/-- The `prefixFieldClashes` function: for each reserved key present in the
map, copy its value to the `"fields."`-prefixed key.  The second and third
reads happen on the already-updated map, exactly as the in-place Go mutation
does. -/
def prefixFieldClashes (data : Fields) : Fields :=
  copyIfPresent (copyIfPresent (copyIfPresent data "time" "fields.time")
    "msg" "fields.msg") "level" "fields.level"

/-- The character class of `needsQuoting`: ASCII letter, ASCII digit, hyphen
or period. -/
def bareChar (ch : Char) : Bool :=
  ('a' ≤ ch && ch ≤ 'z') || ('A' ≤ ch && ch ≤ 'Z') ||
    ('0' ≤ ch && ch ≤ '9') || ch = '-' || ch = '.'

/-- The `needsQuoting` function.  As in the source, the name is inverted: it
returns `true` exactly when every rune is in the bare class, i.e. when the
text may be emitted without quotes. -/
def needsQuoting (text : String) : Bool :=
  text.toList.all bareChar

/-- Lower-case hexadecimal digit, as used by `strconv`'s `\x` escapes. -/
def hexDigit (n : Nat) : Char :=
  if n < 10 then Char.ofNat (48 + n) else Char.ofNat (87 + n)

/-- Escape of one rune inside a Go `%q` double-quoted literal
(`strconv.Quote`).  Printable runes at and above `0x80` are kept verbatim,
matching `strconv.IsPrint` on the printable ones; the formatter's claims do
not depend on the escape shape of non-printable non-ASCII runes. -/
def escapeChar (c : Char) : List Char :=
  if c = '"' then ['\\', '"']
  else if c = '\\' then ['\\', '\\']
  else if c = '\n' then ['\\', 'n']
  else if c = '\t' then ['\\', 't']
  else if c = '\r' then ['\\', 'r']
  else if c.toNat = 7 then ['\\', 'a']
  else if c.toNat = 8 then ['\\', 'b']
  else if c.toNat = 11 then ['\\', 'v']
  else if c.toNat = 12 then ['\\', 'f']
  else if 32 ≤ c.toNat && c.toNat < 127 then [c]
  else if c.toNat < 32 || c.toNat = 127 then
    ['\\', 'x', hexDigit (c.toNat / 16), hexDigit (c.toNat % 16)]
  else [c]

/-- Escape every rune of a list. -/
def escapeList : List Char → List Char
  | [] => []
  | c :: cs => escapeChar c ++ escapeList cs

/-- Go `fmt.Fprintf(b, "%q", s)` for a string `s`: a double-quoted escaped
literal. -/
def goQuote (s : String) : String :=
  String.mk ('"' :: (escapeList s.toList ++ ['"']))

/-- Decimal digits of a natural number, most significant first, accumulated
onto `acc`; `fuel` bounds the recursion depth and is never exhausted when it
exceeds the number of digits. -/
def natDecAux (fuel : Nat) (n : Nat) (acc : List Char) : List Char :=
  match fuel with
  | 0 => acc
  | fuel + 1 =>
    if n < 10 then Char.ofNat (48 + n % 10) :: acc
    else natDecAux fuel (n / 10) (Char.ofNat (48 + n % 10) :: acc)

/-- Decimal digits of a natural number. -/
def natDec (n : Nat) : List Char :=
  natDecAux (n + 1) n []

/-- Go `%d` / default integer rendering: decimal with a leading minus sign
for negative values. -/
def intDec (i : Int) : String :=
  if i < 0 then String.mk ('-' :: natDec i.natAbs) else String.mk (natDec i.natAbs)

/-- Rendering of a value inside `appendKeyValue`: strings and error messages
are emitted bare when every rune is in the bare class and `%q`-quoted
otherwise; other values take the default `fmt.Fprint` representation. -/
def renderValue : Value → String
  | .str s => if needsQuoting s then s else goQuote s
  | .err m => if needsQuoting m then m else goQuote m
  | .int n => intDec n
  | .bool b => if b then "true" else "false"
  | .nil => "<nil>"

/-- Go `%+v` of a field value, used for the field list of the colored mode. -/
def fmtPlusV : Value → String
  | .str s => s
  | .err m => m
  | .int n => intDec n
  | .bool b => if b then "true" else "false"
  | .nil => "<nil>"

/-- Go `%s` of a field value, used for the `"prefix"` field inside
`fmt.Sprintf("%s %s:%s", ...)`; non-string non-error values produce fmt's
bad-verb notice. -/
def fmtS : Value → String
  | .str s => s
  | .err m => m
  | .int n => "%!s(int=" ++ intDec n ++ ")"
  | .bool b => "%!s(bool=" ++ (if b then "true" else "false") ++ ")"
  | .nil => "%!s(<nil>)"

/-- The `appendKeyValue` method: `key`, `'='`, the rendered value, and the
trailing space written after every pair. -/
def appendKeyValue (key : String) (value : Value) : String :=
  key ++ "=" ++ renderValue value ++ " "

/-- Go `unicode.IsSpace`. -/
def goIsSpace (c : Char) : Bool :=
  c = ' ' || c = '\t' || c = '\n' || c.toNat = 11 || c.toNat = 12 || c = '\r' ||
    c.toNat = 133 || c.toNat = 160 || c.toNat = 0x1680 ||
    (0x2000 ≤ c.toNat && c.toNat ≤ 0x200A) ||
    c.toNat = 0x2028 || c.toNat = 0x2029 || c.toNat = 0x202F ||
    c.toNat = 0x205F || c.toNat = 0x3000

/-- Go `strings.TrimSpace`: drop white space from both ends. -/
def trimSpace (s : String) : String :=
  String.mk (((s.toList.dropWhile goIsSpace).reverse.dropWhile goIsSpace).reverse)

/-- Scan for the first `']'`, failing on a newline first, as the anchored
lazy pattern `^\[(.*?)\]` does (`.` does not match a newline, and the lazy
group stops at the first closing bracket). -/
def splitAtRBracket : List Char → Option (List Char × List Char)
  | [] => none
  | c :: cs =>
    if c = ']' then some ([], cs)
    else if c = '\n' then none
    else match splitAtRBracket cs with
      | some pr => some (c :: pr.1, pr.2)
      | none => none

/-- The `extractPrefix` function (renamed: `extractPrefix` cannot be used as
an identifier here): on a match of `^\[(.*?)\]` it returns the bracketed
token and the rest of the message with surrounding white space trimmed;
otherwise the empty token and the message unchanged. -/
def extractPrefixParts (msg : String) : String × String :=
  match msg.toList with
  | c :: rest =>
    if c = '[' then
      match splitAtRBracket rest with
      | some pr => (String.mk pr.1, trimSpace (String.mk pr.2))
      | none => ("", msg)
    else ("", msg)
  | [] => ("", msg)

/-- Upper-casing of an ASCII level name (`strings.ToUpper` restricted to the
ASCII names produced by `Level.string`). -/
def toUpperStr (s : String) : String :=
  String.mk (s.toList.map Char.toUpper)

/-- The level label of the colored mode (`printColored` lines 176-180):
the upper-cased level name, except that the warn level is hard-coded to
`"WARN"`. -/
def levelTextOf (l : Level) : String :=
  if l ≠ Level.warn then toUpperStr (Level.string l) else "WARN"

/-- The level color switch of `printColored`: the default `ansi` constant per
level, overridden by the matching non-empty palette role. -/
def levelColorOf (env : Env) (cs : Colors) : Level → String
  | .debug => if cs.Debug ≠ "" then env.colorCode cs.Debug else env.white
  | .info => if cs.Info ≠ "" then env.colorCode cs.Info else env.blue
  | .warn => if cs.Warn ≠ "" then env.colorCode cs.Warn else env.yellow
  | .error => if cs.Error ≠ "" then env.colorCode cs.Error else env.red
  | .fatal => if cs.Error ≠ "" then env.colorCode cs.Error else env.red
  | .panic => if cs.Error ≠ "" then env.colorCode cs.Error else env.red
  | .other _ => if cs.Default ≠ "" then env.colorCode cs.Default else env.white

/-- Go `%+5s`: right-align to a minimum width (`w`) by padding with spaces on
the left; longer strings are not truncated. -/
def padLeft (w : Nat) (s : String) : String :=
  String.mk (List.replicate (w - s.length) ' ') ++ s

/-- Go `%04d` for the non-negative `miniTS()` value: zero-pad the decimal to
four digits. -/
def pad4 (n : Nat) : String :=
  String.mk (List.replicate (4 - (natDec n).length) '0' ++ natDec n)

/-- The `time.Stamp` layout constant, the default timestamp format. -/
def timeStamp : String := "Jan _2 15:04:05"

/-- The timestamp format chosen by `Format`: the configured one, or
`time.Stamp` when unset. -/
def tsFormatOf (f : TextFormatter) : String :=
  if f.TimestampFormat = "" then timeStamp else f.TimestampFormat

/-- The colorization decision of `Format` (lines 104-105):
`(ForceColors || (isTerminal && GOOS != "windows")) && !DisableColors`. -/
def decideColored (f : TextFormatter) (env : Env) : Bool :=
  (f.ForceColors || (env.isTerminal && !(env.goos == "windows"))) && !f.DisableColors

/-- The key collection of `Format` (lines 89-98): every key of `entry.Data`
except `"prefix"`, sorted lexicographically unless sorting is disabled.
Collection happens on the original map, before `prefixFieldClashes` runs. -/
def collectKeys (f : TextFormatter) (e : Entry) : List String :=
  let ks := (e.Data.map Prod.fst).filter (fun k => !(k == "prefix"))
  if !f.DisableSorting then List.insertionSort (fun a b => a ≤ b) ks else ks

/-- Concatenation of a list of strings, in order. -/
def joinAll : List String → String
  | [] => ""
  | s :: rest => s ++ joinAll rest

/-- The field pairs rendered after the reserved pairs: each collected key
with its value read from the (clash-resolved) map. -/
def fieldPairs (f : TextFormatter) (e : Entry) : List (String × Value) :=
  (collectKeys f e).map fun k => (k, lookupD (prefixFieldClashes e.Data) k)

/-- The plain (non-colored) branch of `Format` (lines 114-123): time pair
unless timestamps are disabled, level pair, message pair unless the message
is empty, then every collected field pair. -/
def plainFormat (f : TextFormatter) (e : Entry) : String :=
  (if f.DisableTimestamp then "" else appendKeyValue "time" (Value.str (e.Time (tsFormatOf f))))
    ++ appendKeyValue "level" (Value.str (Level.string e.Level))
    ++ (if e.Message = "" then "" else appendKeyValue "msg" (Value.str e.Message))
    ++ joinAll ((fieldPairs f e).map fun p => appendKeyValue p.1 p.2)

/-- The prefix annotation and displayed message of `printColored`
(lines 182-197): a `"prefix"` data entry renders as the annotation with the
message kept intact; otherwise a non-empty extracted bracket token renders as
the annotation with the trimmed remainder as message; otherwise no annotation
and the message kept intact. -/
def prefixAndMessage (data : Fields) (message : String) (prefixColor rst : String) :
    String × String :=
  match lookupField data "prefix" with
  | some pv => (prefixColor ++ " " ++ fmtS pv ++ ":" ++ rst, message)
  | none =>
    let pm := extractPrefixParts message
    if pm.1 ≠ "" then (prefixColor ++ " " ++ pm.1 ++ ":" ++ rst, pm.2)
    else ("", message)

/-- The `printColored` method.  Reading any field of a nil `f.Colors` pointer
is a Go nil-pointer panic, modelled by `none`.  The layout of the successful
result follows `fmt.Fprintf(b, "%s[%...]%s %s%+5s%s%s %s", ...)` followed by
one `" %s%s%s=%+v"` per collected key. -/
def printColored (f : TextFormatter) (env : Env) (now : Nat) (e : Entry)
    (data : Fields) (keys : List String) (tsFormat : String) : Option String :=
  match f.Colors with
  | none => none
  | some cs =>
    let levelColor := levelColorOf env cs e.Level
    let prefixColor := if cs.PrefixColor ≠ "" then env.colorCode cs.PrefixColor else env.lightBlack
    let pm := prefixAndMessage data e.Message prefixColor env.reset
    let ts := if f.ShortTimestamp then "[" ++ pad4 now ++ "]" else "[" ++ e.Time tsFormat ++ "]"
    some (prefixColor ++ ts ++ env.reset ++ " " ++ levelColor ++
      padLeft 5 (levelTextOf e.Level) ++ env.reset ++ pm.1 ++ " " ++ pm.2 ++
      joinAll (keys.map fun k => " " ++ levelColor ++ k ++ env.reset ++ "=" ++
        fmtPlusV (lookupD data k)))

/-- The `Format` method: collect keys from the original map, resolve field
clashes, decide colorization, render in one of the two modes, and append the
terminating newline.  `now` is the value `miniTS()` returns at the moment of
the call; a nil-palette panic inside the colored branch surfaces as `none`. -/
def Format (f : TextFormatter) (env : Env) (now : Nat) (e : Entry) : Option String :=
  if decideColored f env then
    (printColored f env now e (prefixFieldClashes e.Data) (collectKeys f e) (tsFormatOf f)).map
      (fun s => s ++ "\n")
  else
    some (plainFormat f e ++ "\n")

/-- Specification-side description of the plain-mode output: the ordered list
of key/value pairs the plain branch renders, written out per the documented
order (time unless disabled, level, msg unless empty, then the collected
fields). -/
def plainPairs (f : TextFormatter) (e : Entry) : List (String × Value) :=
  (if f.DisableTimestamp then [] else [("time", Value.str (e.Time (tsFormatOf f)))])
    ++ [("level", Value.str (Level.string e.Level))]
    ++ (if e.Message = "" then [] else [("msg", Value.str e.Message)])
    ++ fieldPairs f e

/-- Number of newline characters in a string. -/
def nlCount (s : String) : Nat :=
  s.toList.count '\n'

/-- Boolean test: `pat` occurs at the start of `l`. -/
def startsWithSeg : List Char → List Char → Bool
  | [], _ => true
  | _ :: _, [] => false
  | a :: as, b :: bs => a == b && startsWithSeg as bs

/-- Boolean test: `pat` occurs contiguously somewhere in `l`. -/
def containsSeg (l pat : List Char) : Bool :=
  startsWithSeg pat l ||
    match l with
    | [] => false
    | _ :: rest => containsSeg rest pat

/-- Ambient state with an empty color resolver: not a terminal, Linux, and
every `ansi` constant rendered as the empty string, so that colored-mode
outputs below are the raw text. -/
def env0 : Env :=
  { isTerminal := false, goos := "linux", colorCode := fun _ => "", reset := "",
    white := "", blue := "", yellow := "", red := "", lightBlack := "" }

/-- A palette with every role unset, so every role falls back to its default
constant. -/
def colorsEmpty : Colors := ⟨"", "", "", "", "", ""⟩

/-- Default configuration (every option at its zero value, nil palette). -/
def cfgPlain : TextFormatter :=
  { ForceColors := false, DisableColors := false, DisableTimestamp := false,
    ShortTimestamp := false, TimestampFormat := "", DisableSorting := false, Colors := none }

/-- Forced-colors configuration with the empty palette set. -/
def cfgColored : TextFormatter :=
  { cfgPlain with ForceColors := true, Colors := some colorsEmpty }

/-- Forced-colors configuration with the nil palette (the zero value of the
`Colors` pointer field). -/
def cfgNilPalette : TextFormatter :=
  { cfgPlain with ForceColors := true }

/-- Colored configuration with short timestamps. -/
def cfgShort : TextFormatter :=
  { cfgColored with ShortTimestamp := true }

/-- Record whose fields contain the reserved key `"time"`. -/
def eClash : Entry :=
  { Time := fun _ => "T0", Level := .info, Message := "hi", Data := [("time", Value.str "X")] }

/-- Record with a bracketed message token and no `"prefix"` field. -/
def eWorker : Entry :=
  { Time := fun _ => "T0", Level := .info, Message := "[worker] started job", Data := [] }

/-- Record whose message starts with an empty bracket pair. -/
def eBracketEmpty : Entry :=
  { Time := fun _ => "T0", Level := .info, Message := "[] started job", Data := [] }

/-- Record whose message contains a newline. -/
def eNewline : Entry :=
  { Time := fun _ => "T0", Level := .info, Message := "a" ++ "\n" ++ "b", Data := [] }

/-- Minimal record. -/
def eBasic : Entry :=
  { Time := fun _ => "T0", Level := .info, Message := "m", Data := [] }

/-- Record with two unsorted fields. -/
def eTwoFields : Entry :=
  { Time := fun _ => "T0", Level := .info, Message := "m",
    Data := [("b", Value.int 2), ("a", Value.str "x y")] }

/-- Plain configuration with field sorting disabled.  With sorting disabled
the rendered field order follows the map-iteration order, which Go
randomizes per `range` loop; that order is represented here by the order of
the association list. -/
def cfgUnsorted : TextFormatter :=
  { cfgPlain with DisableSorting := true }

/-- A two-field record presented in one iteration order. -/
def ePermA : Entry :=
  { Time := fun _ => "T0", Level := .info, Message := "m",
    Data := [("a", Value.str "1"), ("b", Value.str "2")] }

/-- The same two-field map presented in the other iteration order. -/
def ePermB : Entry :=
  { Time := fun _ => "T0", Level := .info, Message := "m",
    Data := [("b", Value.str "2"), ("a", Value.str "1")] }

/-! Helper lemmas about strings, joining, and the association-list map. -/

theorem toList_inj {a b : String} (h : a.toList = b.toList) : a = b := by
  cases a; cases b; exact congrArg String.mk h

theorem joinAll_append (l1 l2 : List String) :
    joinAll (l1 ++ l2) = joinAll l1 ++ joinAll l2 := by
  induction l1 with
  | nil => simp [joinAll]
  | cons s rest ih => simp [joinAll, ih, String.append_assoc]

theorem nlCount_append (a b : String) : nlCount (a ++ b) = nlCount a + nlCount b := by
  have h : (a ++ b).toList = a.toList ++ b.toList := String.data_append a b
  unfold nlCount
  rw [h, List.count_append]

theorem nlCount_eq_zero {s : String} (h : '\n' ∉ s.toList) : nlCount s = 0 :=
  List.count_eq_zero.mpr h

theorem joinAll_nlCount (l : List String) (h : ∀ s ∈ l, nlCount s = 0) :
    nlCount (joinAll l) = 0 := by
  induction l with
  | nil => rfl
  | cons s rest ih =>
    rw [joinAll, nlCount_append, h s (List.mem_cons_self ..),
      ih (fun t ht => h t (List.mem_cons_of_mem _ ht))]

theorem lookupField_setKey_self (d : Fields) (k : String) (v : Value) :
    lookupField (setKey d k v) k = some v := by
  induction d with
  | nil => simp [setKey, lookupField]
  | cons p rest ih =>
    by_cases h : p.1 = k
    · simp [setKey, h, lookupField]
    · simp [setKey, h, lookupField, ih]

theorem lookupField_setKey_ne (d : Fields) (k k2 : String) (v : Value) (h : k2 ≠ k) :
    lookupField (setKey d k v) k2 = lookupField d k2 := by
  induction d with
  | nil => simp [setKey, lookupField, Ne.symm h]
  | cons p rest ih =>
    by_cases hp : p.1 = k
    · simp [setKey, hp, lookupField, Ne.symm h]
    · simp [setKey, hp, lookupField, ih]

theorem copyIfPresent_lookup_ne (d : Fields) (src dst k : String) (h : k ≠ dst) :
    lookupField (copyIfPresent d src dst) k = lookupField d k := by
  unfold copyIfPresent
  cases hs : lookupField d src with
  | none => rfl
  | some v => exact lookupField_setKey_ne d dst k v h

theorem copyIfPresent_lookup_self (d : Fields) (src dst : String) (v : Value)
    (h : lookupField d src = some v) :
    lookupField (copyIfPresent d src dst) dst = some v := by
  unfold copyIfPresent
  rw [h]
  exact lookupField_setKey_self d dst v

theorem copyIfPresent_none (d : Fields) (src dst : String)
    (h : lookupField d src = none) : copyIfPresent d src dst = d := by
  unfold copyIfPresent
  rw [h]

theorem pfc_lookup_ne (d : Fields) (k : String)
    (h1 : k ≠ "fields.time") (h2 : k ≠ "fields.msg") (h3 : k ≠ "fields.level") :
    lookupField (prefixFieldClashes d) k = lookupField d k := by
  unfold prefixFieldClashes
  rw [copyIfPresent_lookup_ne _ _ _ _ h3, copyIfPresent_lookup_ne _ _ _ _ h2,
    copyIfPresent_lookup_ne _ _ _ _ h1]

theorem pfc_fields_time (d : Fields) (v : Value) (h : lookupField d "time" = some v) :
    lookupField (prefixFieldClashes d) "fields.time" = some v := by
  unfold prefixFieldClashes
  rw [copyIfPresent_lookup_ne _ _ _ _ (by decide), copyIfPresent_lookup_ne _ _ _ _ (by decide)]
  exact copyIfPresent_lookup_self _ _ _ _ h

theorem pfc_fields_msg (d : Fields) (v : Value) (h : lookupField d "msg" = some v) :
    lookupField (prefixFieldClashes d) "fields.msg" = some v := by
  unfold prefixFieldClashes
  rw [copyIfPresent_lookup_ne _ _ _ _ (by decide)]
  exact copyIfPresent_lookup_self _ _ _ _
    (by rw [copyIfPresent_lookup_ne _ _ _ _ (by decide)]; exact h)

theorem pfc_fields_level (d : Fields) (v : Value) (h : lookupField d "level" = some v) :
    lookupField (prefixFieldClashes d) "fields.level" = some v := by
  unfold prefixFieldClashes
  exact copyIfPresent_lookup_self _ _ _ _
    (by rw [copyIfPresent_lookup_ne _ _ _ _ (by decide),
      copyIfPresent_lookup_ne _ _ _ _ (by decide)]; exact h)

theorem pfc_fields_time_absent (d : Fields) (h : lookupField d "time" = none) :
    lookupField (prefixFieldClashes d) "fields.time" = lookupField d "fields.time" := by
  unfold prefixFieldClashes
  rw [copyIfPresent_lookup_ne _ _ _ _ (by decide), copyIfPresent_lookup_ne _ _ _ _ (by decide),
    copyIfPresent_none _ _ _ h]

theorem pfc_fields_msg_absent (d : Fields) (h : lookupField d "msg" = none) :
    lookupField (prefixFieldClashes d) "fields.msg" = lookupField d "fields.msg" := by
  unfold prefixFieldClashes
  rw [copyIfPresent_lookup_ne _ _ _ _ (by decide),
    copyIfPresent_none _ _ _ (by rw [copyIfPresent_lookup_ne _ _ _ _ (by decide)]; exact h),
    copyIfPresent_lookup_ne _ _ _ _ (by decide)]

theorem pfc_fields_level_absent (d : Fields) (h : lookupField d "level" = none) :
    lookupField (prefixFieldClashes d) "fields.level" = lookupField d "fields.level" := by
  unfold prefixFieldClashes
  rw [copyIfPresent_none _ _ _ (by rw [copyIfPresent_lookup_ne _ _ _ _ (by decide),
      copyIfPresent_lookup_ne _ _ _ _ (by decide)]; exact h),
    copyIfPresent_lookup_ne _ _ _ _ (by decide),
    copyIfPresent_lookup_ne _ _ _ _ (by decide)]

theorem lookupField_none_iff (d : Fields) (k : String) :
    lookupField d k = none ↔ k ∉ d.map Prod.fst := by
  induction d with
  | nil => simp [lookupField]
  | cons p rest ih =>
    simp only [lookupField, List.map_cons, List.mem_cons]
    by_cases h : p.1 = k
    · simp [h]
    · simp [h, ih, Ne.symm h]

theorem lookupField_isSome_iff (d : Fields) (k : String) :
    (lookupField d k).isSome = true ↔ k ∈ d.map Prod.fst := by
  cases hd : lookupField d k with
  | none => simpa [hd] using (lookupField_none_iff d k).mp hd
  | some v =>
    simp only [Option.isSome_some, true_iff]
    by_contra hmem
    rw [(lookupField_none_iff d k).mpr hmem] at hd
    cases hd

/-! Newline-freedom of the plain renderings. -/

theorem digitChar_ne_nl (m : Nat) (h : m < 10) : Char.ofNat (48 + m) ≠ '\n' := by
  interval_cases m <;> decide

theorem hexDigit_ne_nl (m : Nat) (h : m < 16) : hexDigit m ≠ '\n' := by
  interval_cases m <;> decide

theorem escapeChar_no_nl (c : Char) : '\n' ∉ escapeChar c := by
  by_cases h3 : c = '\n'
  · subst h3; decide
  · unfold escapeChar
    split
    · decide
    split
    · decide
    split
    · decide
    split
    · decide
    split
    · decide
    split
    · decide
    split
    · decide
    split
    · decide
    split
    · simp only [List.mem_singleton]
      exact fun he => h3 he.symm
    split
    · rename_i hlow
      simp only [Bool.or_eq_true, decide_eq_true_eq] at hlow
      intro hm
      simp only [List.mem_cons, List.mem_singleton, List.not_mem_nil, or_false] at hm
      rcases hm with h1 | h1 | h1 | h1
      · exact absurd h1 (by decide)
      · exact absurd h1 (by decide)
      · exact hexDigit_ne_nl (c.toNat / 16) (by omega) h1.symm
      · exact hexDigit_ne_nl (c.toNat % 16) (by omega) h1.symm
    · simp only [List.mem_singleton]
      exact fun he => h3 he.symm

theorem escapeList_no_nl (l : List Char) : '\n' ∉ escapeList l := by
  induction l with
  | nil => simp [escapeList]
  | cons c cs ih =>
    simp only [escapeList, List.mem_append]
    rintro (hm | hm)
    · exact escapeChar_no_nl c hm
    · exact ih hm

theorem goQuote_no_nl (s : String) : '\n' ∉ (goQuote s).toList := by
  show '\n' ∉ '"' :: (escapeList s.toList ++ ['"'])
  intro hm
  rcases List.mem_cons.mp hm with he | hm2
  · exact absurd he (by decide)
  rcases List.mem_append.mp hm2 with hm3 | hm3
  · exact escapeList_no_nl _ hm3
  · exact absurd (List.mem_singleton.mp hm3) (by decide)

theorem natDecAux_no_nl (fuel n : Nat) (acc : List Char) (h : '\n' ∉ acc) :
    '\n' ∉ natDecAux fuel n acc := by
  induction fuel generalizing n acc with
  | zero => exact h
  | succ fuel ih =>
    unfold natDecAux
    split
    · intro hm
      rcases List.mem_cons.mp hm with he | hm2
      · exact digitChar_ne_nl (n % 10) (Nat.mod_lt _ (by omega)) he.symm
      · exact h hm2
    · exact ih (n / 10) _ (by
        intro hm
        rcases List.mem_cons.mp hm with he | hm2
        · exact digitChar_ne_nl (n % 10) (Nat.mod_lt _ (by omega)) he.symm
        · exact h hm2)

theorem intDec_no_nl (i : Int) : '\n' ∉ (intDec i).toList := by
  unfold intDec
  split
  · show '\n' ∉ '-' :: natDec i.natAbs
    intro hm
    rcases List.mem_cons.mp hm with he | hm2
    · exact absurd he (by decide)
    · exact natDecAux_no_nl _ _ _ (by simp) hm2
  · exact natDecAux_no_nl _ _ _ (by simp)

theorem bare_no_nl {s : String} (h : needsQuoting s = true) : '\n' ∉ s.toList := by
  intro hm
  have := List.all_eq_true.mp h '\n' hm
  cases this

theorem renderValue_no_nl (v : Value) : '\n' ∉ (renderValue v).toList := by
  cases v with
  | str s =>
    by_cases hq : needsQuoting s = true
    · have h : renderValue (Value.str s) = s := by simp [renderValue, hq]
      rw [h]; exact bare_no_nl hq
    · have h : renderValue (Value.str s) = goQuote s := by simp [renderValue, hq]
      rw [h]; exact goQuote_no_nl s
  | err m =>
    by_cases hq : needsQuoting m = true
    · have h : renderValue (Value.err m) = m := by simp [renderValue, hq]
      rw [h]; exact bare_no_nl hq
    · have h : renderValue (Value.err m) = goQuote m := by simp [renderValue, hq]
      rw [h]; exact goQuote_no_nl m
  | int n => exact intDec_no_nl n
  | bool b => cases b <;> decide
  | nil => decide

theorem appendKeyValue_nlCount (k : String) (v : Value) (hk : nlCount k = 0) :
    nlCount (appendKeyValue k v) = 0 := by
  unfold appendKeyValue
  rw [nlCount_append, nlCount_append, nlCount_append, hk,
    nlCount_eq_zero (renderValue_no_nl v)]
  rfl

/-! Key collection and the pair view of the plain mode. -/

theorem mem_collectKeys_iff (f : TextFormatter) (e : Entry) (k : String) :
    k ∈ collectKeys f e ↔ (k ∈ e.Data.map Prod.fst ∧ ¬ k = "prefix") := by
  have hperm := List.perm_insertionSort (fun a b : String => a ≤ b)
    ((e.Data.map Prod.fst).filter (fun k => !(k == "prefix")))
  unfold collectKeys
  cases hs : f.DisableSorting <;>
    simp [hs, hperm.mem_iff, List.mem_filter]

theorem joinAll_singleton (s : String) : joinAll [s] = s :=
  String.append_empty s

theorem plainFormat_eq_pairs (f : TextFormatter) (e : Entry) :
    plainFormat f e = joinAll ((plainPairs f e).map fun p => appendKeyValue p.1 p.2) := by
  unfold plainFormat plainPairs
  cases ht : f.DisableTimestamp <;> by_cases hm : e.Message = "" <;>
    rw [List.map_append, joinAll_append, List.map_append, joinAll_append,
      List.map_append, joinAll_append] <;>
    simp [ht, hm, joinAll, String.append_empty]

theorem appendKeyValue_trailing (k : String) (v : Value) :
    ∃ t, appendKeyValue k v = t ++ " " := by
  refine ⟨k ++ "=" ++ renderValue v, ?_⟩
  unfold appendKeyValue
  rw [String.append_assoc, String.append_assoc]

/-! Length facts about quoting, for the bare-output characterisation. -/

theorem escapeChar_length (c : Char) : 1 ≤ (escapeChar c).length := by
  by_cases h3 : c = '\n'
  · subst h3; decide
  · unfold escapeChar
    split
    · decide
    split
    · decide
    split
    · decide
    split
    · decide
    split
    · decide
    split
    · decide
    split
    · decide
    split
    · decide
    split
    · simp
    split
    · simp
    · simp

theorem escapeList_length (l : List Char) : l.length ≤ (escapeList l).length := by
  induction l with
  | nil => simp [escapeList]
  | cons c cs ih =>
    have hc := escapeChar_length c
    simp only [escapeList, List.length_append, List.length_cons]
    omega

theorem goQuote_ne (s : String) : goQuote s ≠ s := by
  intro h
  have hlen : (goQuote s).toList.length = s.toList.length := by rw [h]
  have hshape : (goQuote s).toList = '"' :: (escapeList s.toList ++ ['"']) := rfl
  rw [hshape] at hlen
  simp only [List.length_cons, List.length_append, List.length_singleton] at hlen
  have := escapeList_length s.toList
  omega

/-! Newline count of a whole plain-mode line. -/

theorem plainFormat_nlCount (f : TextFormatter) (e : Entry)
    (hk : ∀ k ∈ e.Data.map Prod.fst, nlCount k = 0) :
    nlCount (plainFormat f e) = 0 := by
  unfold plainFormat
  rw [nlCount_append, nlCount_append, nlCount_append]
  have h1 : nlCount (if f.DisableTimestamp then "" else
      appendKeyValue "time" (Value.str (e.Time (tsFormatOf f)))) = 0 := by
    cases ht : f.DisableTimestamp
    · simpa [ht] using
        appendKeyValue_nlCount "time" (Value.str (e.Time (tsFormatOf f))) (by decide)
    · simp [ht, nlCount]
  have h2 : nlCount (appendKeyValue "level" (Value.str (Level.string e.Level))) = 0 :=
    appendKeyValue_nlCount _ _ (by decide)
  have h3 : nlCount (if e.Message = "" then ""
      else appendKeyValue "msg" (Value.str e.Message)) = 0 := by
    by_cases hm : e.Message = ""
    · simp [hm, nlCount]
    · simpa [hm] using appendKeyValue_nlCount "msg" (Value.str e.Message) (by decide)
  have h4 : nlCount (joinAll ((fieldPairs f e).map fun p => appendKeyValue p.1 p.2)) = 0 := by
    apply joinAll_nlCount
    intro s hs
    rcases List.mem_map.mp hs with ⟨p, hp, rfl⟩
    rcases List.mem_map.mp (by simpa [fieldPairs] using hp) with ⟨k, hkmem, rfl⟩
    exact appendKeyValue_nlCount _ _ (hk k ((mem_collectKeys_iff f e k).mp hkmem).1)
  omega

theorem format_ends_nl (f : TextFormatter) (env : Env) (now : Nat) (e : Entry) :
    ∀ s, Format f env now e = some s → ∃ t, s = t ++ "\n" := by
  intro s hs
  unfold Format at hs
  by_cases hc : decideColored f env = true
  · rw [if_pos hc] at hs
    cases hp : printColored f env now e (prefixFieldClashes e.Data) (collectKeys f e)
        (tsFormatOf f) with
    | none => rw [hp] at hs; cases hs
    | some x =>
      rw [hp] at hs
      simp only [Option.map_some', Option.some_inj] at hs
      exact ⟨x, hs.symm⟩
  · rw [if_neg hc] at hs
    exact ⟨plainFormat f e, (Option.some_inj.mp hs).symm⟩

/-- C9 (amended): every produced line ends in the newline byte appended at
the end of `Format`, and in plain mode — provided no field key itself
contains a newline — the line contains exactly one newline in total.  In
colored mode the message and the field values are written verbatim, so a
newline inside them is copied into the line (see the counterexample). -/
theorem newline_amended (f : TextFormatter) (env : Env) (now : Nat) (e : Entry)
    (hk : ∀ k ∈ e.Data.map Prod.fst, nlCount k = 0) :
    (∀ s, Format f env now e = some s → ∃ t, s = t ++ "\n") ∧
    (decideColored f env = false →
      Format f env now e = some (plainFormat f e ++ "\n") ∧
      nlCount (plainFormat f e ++ "\n") = 1) := by
  refine ⟨format_ends_nl f env now e, fun hc => ⟨?_, ?_⟩⟩
  · unfold Format
    rw [if_neg (by simp [hc])]
  · rw [nlCount_append, plainFormat_nlCount f e hk]
    rfl

/-- C9 witness: a concrete plain-mode line with two fields has exactly one
newline, at the end. -/
theorem newline_amended_witness :
    Format cfgPlain env0 0 eTwoFields = some (plainFormat cfgPlain eTwoFields ++ "\n") ∧
    nlCount (plainFormat cfgPlain eTwoFields ++ "\n") = 1 :=
  (newline_amended cfgPlain env0 0 eTwoFields (by decide)).2 rfl

/-- C9 counterexample: in colored mode a record message containing a newline
produces a line with two newline bytes, refuting the claim for colored mode
with newline-carrying messages. -/
theorem colored_message_newline_leak :
    Format cfgColored env0 0 eNewline = some "[T0]  INFO a\nb\n" ∧
    nlCount "[T0]  INFO a\nb\n" = 2 :=
  ⟨by decide, by decide⟩

/-! Lookup behaviour under permutation of the map presentation (for C8). -/

theorem lookupField_setKey (d : Fields) (t k : String) (v : Value) :
    lookupField (setKey d t v) k = if k = t then some v else lookupField d k := by
  by_cases h : k = t
  · subst h
    rw [if_pos rfl]
    exact lookupField_setKey_self d k v
  · rw [if_neg h]
    exact lookupField_setKey_ne d t k v h

theorem lookup_some_mem (d : Fields) (k : String) (v : Value)
    (h : lookupField d k = some v) : (k, v) ∈ d := by
  induction d with
  | nil => cases h
  | cons p rest ih =>
    unfold lookupField at h
    by_cases hp : p.1 = k
    · rw [if_pos hp] at h
      have h2 : p.2 = v := Option.some_inj.mp h
      have h3 : (k, v) ∈ p :: rest := by
        rw [← hp, ← h2]
        exact List.mem_cons_self _ _
      exact h3
    · rw [if_neg hp] at h
      exact List.mem_cons_of_mem _ (ih h)

theorem mem_lookup_of_nodup (d : Fields) (k : String) (v : Value)
    (hnd : (d.map Prod.fst).Nodup) (hm : (k, v) ∈ d) :
    lookupField d k = some v := by
  induction d with
  | nil => cases hm
  | cons p rest ih =>
    rw [List.map_cons] at hnd
    have hnd2 := List.nodup_cons.mp hnd
    rcases List.mem_cons.mp hm with heq | hmem
    · rw [← heq]
      unfold lookupField
      rw [if_pos rfl]
    · unfold lookupField
      by_cases hp : p.1 = k
      · exfalso
        apply hnd2.1
        rw [hp]
        exact List.mem_map.mpr ⟨(k, v), hmem, rfl⟩
      · rw [if_neg hp]
        exact ih hnd2.2 hmem

theorem lookup_eq_of_perm (d1 d2 : Fields) (hp : List.Perm d1 d2)
    (hnd : (d1.map Prod.fst).Nodup) (k : String) :
    lookupField d1 k = lookupField d2 k := by
  have hnd2 : (d2.map Prod.fst).Nodup := (hp.map Prod.fst).nodup_iff.mp hnd
  cases h1 : lookupField d1 k with
  | none =>
    have h2 : k ∉ d1.map Prod.fst := (lookupField_none_iff d1 k).mp h1
    have h3 : k ∉ d2.map Prod.fst := fun hmem => h2 ((hp.map Prod.fst).mem_iff.mpr hmem)
    exact ((lookupField_none_iff d2 k).mpr h3).symm
  | some v =>
    exact (mem_lookup_of_nodup d2 k v hnd2 (hp.mem_iff.mp (lookup_some_mem d1 k v h1))).symm

theorem copyIfPresent_lookup_congr (d1 d2 : Fields) (s t : String)
    (h : ∀ k, lookupField d1 k = lookupField d2 k) :
    ∀ k, lookupField (copyIfPresent d1 s t) k = lookupField (copyIfPresent d2 s t) k := by
  intro k
  unfold copyIfPresent
  rw [h s]
  cases hs : lookupField d2 s with
  | none => exact h k
  | some v => rw [lookupField_setKey, lookupField_setKey, h k]

theorem pfc_lookup_congr (d1 d2 : Fields)
    (h : ∀ k, lookupField d1 k = lookupField d2 k) :
    ∀ k, lookupField (prefixFieldClashes d1) k = lookupField (prefixFieldClashes d2) k := by
  unfold prefixFieldClashes
  exact copyIfPresent_lookup_congr _ _ _ _
    (copyIfPresent_lookup_congr _ _ _ _ (copyIfPresent_lookup_congr _ _ _ _ h))

theorem collectKeys_eq_sort (f : TextFormatter) (e : Entry)
    (hsort : f.DisableSorting = false) :
    collectKeys f e = List.insertionSort (fun a b : String => a ≤ b)
      ((e.Data.map Prod.fst).filter (fun k => !(k == "prefix"))) := by
  unfold collectKeys
  rw [hsort]
  rfl

theorem collectKeys_eq_of_perm (f : TextFormatter) (e : Entry) (d2 : Fields)
    (hperm : List.Perm e.Data d2) (hsort : f.DisableSorting = false) :
    collectKeys f e = collectKeys f { e with Data := d2 } := by
  rw [collectKeys_eq_sort f e hsort, collectKeys_eq_sort f { e with Data := d2 } hsort]
  refine List.eq_of_perm_of_sorted ?_ (List.sorted_insertionSort _ _)
    (List.sorted_insertionSort _ _)
  exact (List.perm_insertionSort _ _).trans
    (((hperm.map Prod.fst).filter _).trans (List.perm_insertionSort _ _).symm)

theorem prefixAndMessage_congr (dA dB : Fields) (msg pc rst : String)
    (h : lookupField dA "prefix" = lookupField dB "prefix") :
    prefixAndMessage dA msg pc rst = prefixAndMessage dB msg pc rst := by
  unfold prefixAndMessage
  rw [h]

theorem printColored_congr (f : TextFormatter) (env : Env) (m1 m2 : Nat) (e : Entry)
    (dA dB : Fields) (keys : List String) (tsF : String)
    (hd : ∀ k, lookupField dA k = lookupField dB k)
    (hst : f.ShortTimestamp = false) :
    printColored f env m1 e dA keys tsF = printColored f env m2 e dB keys tsF := by
  unfold printColored
  cases f.Colors with
  | none => rfl
  | some cs =>
    have hpm := prefixAndMessage_congr dA dB e.Message
      (if cs.PrefixColor ≠ "" then env.colorCode cs.PrefixColor else env.lightBlack)
      env.reset (hd "prefix")
    have hjoin : (keys.map fun k => " " ++ levelColorOf env cs e.Level ++ k ++
        env.reset ++ "=" ++ fmtPlusV (lookupD dA k)) =
        keys.map fun k => " " ++ levelColorOf env cs e.Level ++ k ++
        env.reset ++ "=" ++ fmtPlusV (lookupD dB k) := by
      apply List.map_congr_left
      intro k _
      have h2 : lookupD dA k = lookupD dB k := by
        unfold lookupD
        rw [hd k]
      rw [h2]
    have hts2 : (if f.ShortTimestamp then "[" ++ pad4 m1 ++ "]"
        else "[" ++ e.Time tsF ++ "]") =
        (if f.ShortTimestamp then "[" ++ pad4 m2 ++ "]"
        else "[" ++ e.Time tsF ++ "]") := by
      rw [hst]
      rfl
    simp only [hpm, hjoin, hts2]

theorem plainFormat_congr (f : TextFormatter) (e : Entry) (d2 : Fields)
    (hperm : List.Perm e.Data d2) (hnd : (e.Data.map Prod.fst).Nodup)
    (hsort : f.DisableSorting = false) :
    plainFormat f e = plainFormat f { e with Data := d2 } := by
  have hlk := lookup_eq_of_perm e.Data d2 hperm hnd
  have hpfc := pfc_lookup_congr e.Data d2 hlk
  have hck := collectKeys_eq_of_perm f e d2 hperm hsort
  have hfp : fieldPairs f e = fieldPairs f { e with Data := d2 } := by
    unfold fieldPairs
    rw [← hck]
    apply List.map_congr_left
    intro k _
    have h2 : lookupD (prefixFieldClashes e.Data) k =
        lookupD (prefixFieldClashes d2) k := by
      unfold lookupD
      rw [hpfc k]
    rw [h2]
  unfold plainFormat
  rw [hfp]

/-- C8 (amended): the output is a function of the record, the configuration,
the ambient state, the `miniTS` clock reading, and the map-iteration order
in which the fields are presented (the order of the `Data` list; Go
randomizes that order on every `range` loop).  When field sorting is enabled
— map keys being unique — and short-timestamp colored rendering is not in
effect, the iteration order and the clock are both erased, so formatting the
same immutable record and configuration twice yields byte-identical output.
With sorting disabled, the same two-field map presented in its two iteration
orders yields two different lines; with short timestamps in colored mode the
output depends on the call instant (see the counterexample). -/
theorem determinism_amended (f : TextFormatter) (env : Env) (m1 m2 : Nat) (e : Entry)
    (d2 : Fields)
    (hperm : List.Perm e.Data d2)
    (hnd : (e.Data.map Prod.fst).Nodup)
    (hsort : f.DisableSorting = false)
    (hts : f.ShortTimestamp = false ∨ decideColored f env = false) :
    (Format f env m1 e = Format f env m2 { e with Data := d2 }) ∧
    List.Perm ePermA.Data ePermB.Data ∧
    Format cfgUnsorted env0 0 ePermA ≠ Format cfgUnsorted env0 0 ePermB := by
  refine ⟨?_, by decide, by decide⟩
  have hlk := lookup_eq_of_perm e.Data d2 hperm hnd
  have hpfc := pfc_lookup_congr e.Data d2 hlk
  have hck := collectKeys_eq_of_perm f e d2 hperm hsort
  unfold Format
  by_cases hc : decideColored f env = true
  · rcases hts with hst | hdc
    · rw [if_pos hc, if_pos hc]
      show (printColored f env m1 e (prefixFieldClashes e.Data) (collectKeys f e)
          (tsFormatOf f)).map (fun s => s ++ "\n") =
        (printColored f env m2 e (prefixFieldClashes d2)
          (collectKeys f { e with Data := d2 }) (tsFormatOf f)).map (fun s => s ++ "\n")
      rw [← hck, printColored_congr f env m1 m2 e (prefixFieldClashes e.Data)
        (prefixFieldClashes d2) (collectKeys f e) (tsFormatOf f) hpfc hst]
    · rw [hdc] at hc
      cases hc
  · rw [if_neg hc, if_neg hc]
    rw [plainFormat_congr f e d2 hperm hnd hsort]

/-- C8 witness: the same two-field map presented in two iteration orders and
formatted at two different instants yields byte-identical lines under the
default sorting-enabled plain configuration. -/
theorem determinism_amended_witness :
    Format cfgPlain env0 3 eTwoFields =
      Format cfgPlain env0 7
        { eTwoFields with Data := [("a", Value.str "x y"), ("b", Value.int 2)] } :=
  (determinism_amended cfgPlain env0 3 7 eTwoFields
    [("a", Value.str "x y"), ("b", Value.int 2)]
    (by decide) (by decide) rfl (Or.inl rfl)).1

/-- C8 counterexample: with short timestamps in colored mode, the same record
and configuration formatted at elapsed seconds 3 and 4 yield different
bytes, so the output is not a function of record and configuration alone. -/
theorem short_timestamp_time_dependent :
    Format cfgShort env0 3 eBasic = some "[0003]  INFO m\n" ∧
    Format cfgShort env0 4 eBasic = some "[0004]  INFO m\n" ∧
    Format cfgShort env0 3 eBasic ≠ Format cfgShort env0 4 eBasic :=
  ⟨by decide, by decide, by decide⟩

/-- C5: colored rendering is chosen exactly when (force-colors is set, or the
output is an interactive terminal on a non-Windows OS) and colors are not
disabled; in particular disable-colors forces the plain branch even when
force-colors is set. -/
theorem colored_decision_spec (f : TextFormatter) (env : Env) (now : Nat) (e : Entry) :
    (decideColored f env = true ↔
      ((f.ForceColors = true ∨ (env.isTerminal = true ∧ env.goos ≠ "windows")) ∧
        f.DisableColors = false)) ∧
    (f.DisableColors = true → Format f env now e = some (plainFormat f e ++ "\n")) := by
  constructor
  · unfold decideColored
    cases hf : f.ForceColors <;> cases hterm : env.isTerminal <;>
      cases hd : f.DisableColors <;> simp [hf, hterm, hd]
  · intro hd
    have hc : ¬ decideColored f env = true := by
      unfold decideColored
      rw [hd]
      simp
    unfold Format
    rw [if_neg hc]

/-- C5 witness: a force-colors configuration with colors disabled renders the
plain key=value line. -/
theorem colored_decision_spec_witness :
    Format { cfgColored with DisableColors := true } env0 0 eBasic =
      some (plainFormat { cfgColored with DisableColors := true } eBasic ++ "\n") :=
  (colored_decision_spec { cfgColored with DisableColors := true } env0 0 eBasic).2 rfl

/-- C2 (code bug): with colorization enabled and the `Colors` pointer nil —
the zero value of the field, here under force-colors — `printColored`
dereferences the nil palette and panics (modelled by `none`), so `Format`
returns no byte sequence, contradicting the never-fails contract. -/
theorem format_nil_palette_crash :
    decideColored cfgNilPalette env0 = true ∧
    cfgNilPalette.Colors = none ∧
    Format cfgNilPalette env0 0 eBasic = none :=
  ⟨rfl, rfl, rfl⟩

/-! Bare versus quoted rendering of string and error values (C3). -/

theorem toList_append (a b : String) : (a ++ b).toList = a.toList ++ b.toList :=
  String.data_append a b

theorem renderValue_bare (s : String) (hq : needsQuoting s = true) :
    renderValue (Value.str s) = s ∧ renderValue (Value.err s) = s := by
  constructor <;> simp [renderValue, hq]

theorem renderValue_quoted (s : String) (hq : needsQuoting s = false) :
    renderValue (Value.str s) = goQuote s ∧ renderValue (Value.err s) = goQuote s := by
  constructor <;> simp [renderValue, hq]

theorem appendKeyValue_value_inj (k x y : String)
    (h : k ++ "=" ++ x ++ " " = k ++ "=" ++ y ++ " ") : x = y := by
  apply toList_inj
  have h2 := congrArg String.toList h
  simp only [toList_append] at h2
  exact List.append_cancel_left (List.append_cancel_right h2)

/-- C3: `appendKeyValue` renders a string value bare exactly when every
character is an ASCII letter, ASCII digit, hyphen or period; otherwise it
renders the `%q`-quoted escaped literal; the same test on the message string
governs error values.  Concretely `"abc-1.2"` renders bare and
`"hello world"` renders quoted. -/
theorem quoting_bare_iff (k s : String) :
    (appendKeyValue k (Value.str s) = k ++ "=" ++ s ++ " " ↔
      ∀ c ∈ s.toList, bareChar c = true) ∧
    ((¬ ∀ c ∈ s.toList, bareChar c = true) →
      appendKeyValue k (Value.str s) = k ++ "=" ++ goQuote s ++ " " ∧
      appendKeyValue k (Value.err s) = k ++ "=" ++ goQuote s ++ " ") ∧
    ((∀ c ∈ s.toList, bareChar c = true) →
      appendKeyValue k (Value.err s) = k ++ "=" ++ s ++ " ") ∧
    appendKeyValue k (Value.str "abc-1.2") = k ++ "=" ++ "abc-1.2" ++ " " ∧
    appendKeyValue k (Value.str "hello world") = k ++ "=" ++ "\"hello world\"" ++ " " := by
  have hbare : ∀ s2 : String, needsQuoting s2 = true ↔ ∀ c ∈ s2.toList, bareChar c = true := by
    intro s2
    unfold needsQuoting
    exact List.all_eq_true
  have hfalse : (¬ ∀ c ∈ s.toList, bareChar c = true) → needsQuoting s = false := by
    intro hb
    cases hqq : needsQuoting s
    · rfl
    · exact absurd ((hbare s).mp hqq) hb
  refine ⟨⟨?_, ?_⟩, ?_, ?_, ?_, ?_⟩
  · intro he
    by_contra hb
    have h1 : appendKeyValue k (Value.str s) = k ++ "=" ++ goQuote s ++ " " := by
      unfold appendKeyValue
      rw [(renderValue_quoted s (hfalse hb)).1]
    rw [h1] at he
    exact goQuote_ne s (appendKeyValue_value_inj k _ _ he)
  · intro hb
    unfold appendKeyValue
    rw [(renderValue_bare s ((hbare s).mpr hb)).1]
  · intro hb
    constructor
    · unfold appendKeyValue
      rw [(renderValue_quoted s (hfalse hb)).1]
    · unfold appendKeyValue
      rw [(renderValue_quoted s (hfalse hb)).2]
  · intro hb
    unfold appendKeyValue
    rw [(renderValue_bare s ((hbare s).mpr hb)).2]
  · unfold appendKeyValue
    rw [(renderValue_bare "abc-1.2" (by decide)).1]
  · unfold appendKeyValue
    have hv : renderValue (Value.str "hello world") = "\"hello world\"" := by decide
    rw [hv]

/-- C3 witness: the quoted branch applied at `"hello world"` and the bare
branch at `"abc-1.2"`. -/
theorem quoting_bare_iff_witness :
    appendKeyValue "k" (Value.str "hello world") = "k" ++ "=" ++ goQuote "hello world" ++ " " ∧
    appendKeyValue "k" (Value.str "abc-1.2") = "k" ++ "=" ++ "abc-1.2" ++ " " :=
  ⟨((quoting_bare_iff "k" "hello world").2.1 (by decide)).1,
    (quoting_bare_iff "k" "abc-1.2").2.2.2.1⟩

/-- C7 counterexample: the colored level label is the full upper-cased level
name, not a four-letter abbreviation: the debug label is `"DEBUG"`, not
`"DEBU"`, and the error label is `"ERROR"`, not `"ERRO"`. -/
theorem level_label_not_abbreviated :
    levelTextOf Level.debug = "DEBUG" ∧ padLeft 5 (levelTextOf Level.debug) = "DEBUG" ∧
    levelTextOf Level.debug ≠ "DEBU" ∧ padLeft 5 (levelTextOf Level.debug) ≠ " DEBU" ∧
    levelTextOf Level.error = "ERROR" ∧ levelTextOf Level.error ≠ "ERRO" :=
  ⟨by decide, by decide, by decide, by decide, by decide, by decide⟩

/-- C7 (amended): the colored level label is the upper-cased full level name
(`DEBUG`, `INFO`, `WARN`, `ERROR`, `FATAL`, `PANIC`), right-aligned by
`%+5s` to a five-character minimum without truncation, and for the warn
level the label is hard-coded to exactly `WARN` even though the level name
upper-cases to `WARNING`. -/
theorem level_label_amended :
    levelTextOf Level.debug = "DEBUG" ∧ levelTextOf Level.info = "INFO" ∧
    levelTextOf Level.warn = "WARN" ∧ levelTextOf Level.error = "ERROR" ∧
    levelTextOf Level.fatal = "FATAL" ∧ levelTextOf Level.panic = "PANIC" ∧
    toUpperStr (Level.string Level.warn) = "WARNING" ∧
    levelTextOf Level.warn ≠ toUpperStr (Level.string Level.warn) ∧
    padLeft 5 "INFO" = " INFO" ∧ padLeft 5 "WARN" = " WARN" ∧
    padLeft 5 "DEBUG" = "DEBUG" ∧
    (∀ s : String, (padLeft 5 s).length = max 5 s.length) ∧
    (∀ s : String, ∃ m, padLeft 5 s = String.mk (List.replicate m ' ') ++ s) := by
  refine ⟨by decide, by decide, by decide, by decide, by decide, by decide, by decide,
    by decide, by decide, by decide, by decide, ?_, ?_⟩
  · intro s
    unfold padLeft
    rw [String.length_append]
    have hl : (String.mk (List.replicate (5 - s.length) ' ')).length = 5 - s.length := by
      show (List.replicate (5 - s.length) ' ').length = 5 - s.length
      exact List.length_replicate _ _
    rw [hl]
    omega
  · intro s
    exact ⟨5 - s.length, rfl⟩

/-! Prefix extraction and the colored prefix annotation (C4). -/

theorem splitAtRBracket_append (tok rest : List Char)
    (h : ∀ c ∈ tok, ¬ c = ']' ∧ ¬ c = '\n') :
    splitAtRBracket (tok ++ ']' :: rest) = some (tok, rest) := by
  induction tok with
  | nil => simp [splitAtRBracket]
  | cons c cs ih =>
    have hc := h c (List.mem_cons_self _ _)
    rw [List.cons_append]
    unfold splitAtRBracket
    rw [if_neg hc.1, if_neg hc.2, ih (fun a ha => h a (List.mem_cons_of_mem _ ha))]

theorem extractPrefixParts_bracket (tok rest : String)
    (h : ∀ c ∈ tok.toList, ¬ c = ']' ∧ ¬ c = '\n') :
    extractPrefixParts ("[" ++ tok ++ "]" ++ rest) = (tok, trimSpace rest) := by
  have hshape : ("[" ++ tok ++ "]" ++ rest).toList =
      '[' :: (tok.toList ++ ']' :: rest.toList) := by
    simp [toList_append, List.append_assoc]
  have h2 : splitAtRBracket (tok.data ++ ']' :: rest.data) = some (tok.data, rest.data) :=
    splitAtRBracket_append tok.toList rest.toList h
  unfold extractPrefixParts
  rw [hshape]
  simp [h2]

/-- C4 (amended): with a `"prefix"` data entry the annotation renders from
that entry and the message is untouched; without one, a message of shape
`"[" ++ tok ++ "]" ++ rest` whose bracket token `tok` is non-empty and free
of `']'` and newline yields the annotation built from `tok` with the
displayed message `trimSpace rest` (white space trimmed on both sides, not
only after the bracket); when the extracted token is empty —, e.g. for an
empty bracket pair or no leading bracket — the message is left intact, even
if a matching `']'` exists, and no annotation is produced.  The concrete
case of the claim holds: `"[worker] started job"` displays prefix `worker`
and message `started job`. -/
theorem prefix_resolution_amended (data : Fields) (msg pc rst : String) :
    (∀ pv, lookupField data "prefix" = some pv →
      prefixAndMessage data msg pc rst = (pc ++ " " ++ fmtS pv ++ ":" ++ rst, msg)) ∧
    (lookupField data "prefix" = none → ∀ tok rest : String, ¬ tok = "" →
      (∀ c ∈ tok.toList, ¬ c = ']' ∧ ¬ c = '\n') →
      msg = "[" ++ tok ++ "]" ++ rest →
      prefixAndMessage data msg pc rst = (pc ++ " " ++ tok ++ ":" ++ rst, trimSpace rest)) ∧
    (lookupField data "prefix" = none → (extractPrefixParts msg).1 = "" →
      prefixAndMessage data msg pc rst = ("", msg)) ∧
    Format cfgColored env0 0 eWorker = some "[T0]  INFO worker: started job\n" := by
  refine ⟨?_, ?_, ?_, by decide⟩
  · intro pv hpv
    unfold prefixAndMessage
    rw [hpv]
  · intro hnone tok rest htok hchars hmsg
    unfold prefixAndMessage
    rw [hnone]
    subst hmsg
    rw [extractPrefixParts_bracket tok rest hchars]
    simp [htok]
  · intro hnone hemp
    unfold prefixAndMessage
    rw [hnone]
    simp [hemp]

/-- C4 witness: the bracket branch applied at the claim's concrete message,
plus the whole colored line for that record. -/
theorem prefix_resolution_amended_witness :
    prefixAndMessage [] "[worker] started job" "" "" =
      ("" ++ " " ++ "worker" ++ ":" ++ "", trimSpace " started job") ∧
    Format cfgColored env0 0 eWorker = some "[T0]  INFO worker: started job\n" :=
  ⟨(prefix_resolution_amended [] "[worker] started job" "" "").2.1 rfl "worker"
      " started job" (by decide) (by decide) (by decide),
    (prefix_resolution_amended [] "x" "" "").2.2.2⟩

/-- C4 counterexample: the message `"[] started job"` starts with `'['` and
contains a matching `']'`, yet the rendered colored line keeps the message
intact — nothing is stripped and no annotation appears — because the
extracted bracket token is empty. -/
theorem empty_bracket_not_stripped :
    Format cfgColored env0 0 eBracketEmpty = some "[T0]  INFO [] started job\n" ∧
    containsSeg ("[T0]  INFO [] started job\n").toList ("[] started job").toList = true ∧
    extractPrefixParts "[] started job" = ("", "started job") :=
  ⟨by decide, by decide, by decide⟩

/-! The frame of the clash resolution (C10) and the plain-mode order (C6, C1). -/

/-- C10: `prefixFieldClashes` deletes nothing and changes no binding except
possibly the three `"fields."`-prefixed reserved copies: each reserved key
present has its value copied onto the prefixed key (overwriting any previous
binding there), the prefixed keys are untouched when the matching reserved
key is absent, and every other key keeps its binding. -/
theorem prefixFieldClashes_frame (d : Fields) :
    (∀ k, ¬ k = "fields.time" → ¬ k = "fields.msg" → ¬ k = "fields.level" →
      lookupField (prefixFieldClashes d) k = lookupField d k) ∧
    (∀ v, lookupField d "time" = some v →
      lookupField (prefixFieldClashes d) "fields.time" = some v) ∧
    (∀ v, lookupField d "msg" = some v →
      lookupField (prefixFieldClashes d) "fields.msg" = some v) ∧
    (∀ v, lookupField d "level" = some v →
      lookupField (prefixFieldClashes d) "fields.level" = some v) ∧
    (lookupField d "time" = none →
      lookupField (prefixFieldClashes d) "fields.time" = lookupField d "fields.time") ∧
    (lookupField d "msg" = none →
      lookupField (prefixFieldClashes d) "fields.msg" = lookupField d "fields.msg") ∧
    (lookupField d "level" = none →
      lookupField (prefixFieldClashes d) "fields.level" = lookupField d "fields.level") ∧
    (∀ k, (lookupField d k).isSome = true →
      (lookupField (prefixFieldClashes d) k).isSome = true) := by
  refine ⟨fun k h1 h2 h3 => pfc_lookup_ne d k h1 h2 h3,
    fun v hv => pfc_fields_time d v hv,
    fun v hv => pfc_fields_msg d v hv,
    fun v hv => pfc_fields_level d v hv,
    pfc_fields_time_absent d, pfc_fields_msg_absent d, pfc_fields_level_absent d, ?_⟩
  intro k hk
  by_cases h1 : k = "fields.time"
  · subst h1
    cases ht : lookupField d "time" with
    | some v => rw [pfc_fields_time d v ht]; rfl
    | none => rw [pfc_fields_time_absent d ht]; exact hk
  by_cases h2 : k = "fields.msg"
  · subst h2
    cases ht : lookupField d "msg" with
    | some v => rw [pfc_fields_msg d v ht]; rfl
    | none => rw [pfc_fields_msg_absent d ht]; exact hk
  by_cases h3 : k = "fields.level"
  · subst h3
    cases ht : lookupField d "level" with
    | some v => rw [pfc_fields_level d v ht]; rfl
    | none => rw [pfc_fields_level_absent d ht]; exact hk
  rw [pfc_lookup_ne d k h1 h2 h3]
  exact hk

/-- C10 witness: the frame applied to a concrete map containing `"time"`. -/
theorem prefixFieldClashes_frame_witness :
    lookupField (prefixFieldClashes [("time", Value.str "x"), ("a", Value.int 1)])
      "fields.time" = some (Value.str "x") ∧
    lookupField (prefixFieldClashes [("time", Value.str "x"), ("a", Value.int 1)])
      "a" = some (Value.int 1) :=
  ⟨(prefixFieldClashes_frame _).2.1 _ rfl,
    (prefixFieldClashes_frame _).1 "a" (by decide) (by decide) (by decide)⟩

/-- C6: in plain mode the rendered line is exactly the concatenation of the
documented pair sequence — time pair unless timestamps are disabled, level
pair, message pair when the message is non-empty, then one pair per
collected field key — each pair carrying its trailing space (the last one
included), followed by the single newline; with sorting enabled the field
keys are the input keys other than `"prefix"` in lexicographic order. -/
theorem plain_order_spec (f : TextFormatter) (env : Env) (now : Nat) (e : Entry)
    (hcol : decideColored f env = false) (hsort : f.DisableSorting = false) :
    Format f env now e =
      some (joinAll ((plainPairs f e).map fun p => appendKeyValue p.1 p.2) ++ "\n") ∧
    List.Sorted (fun a b : String => a ≤ b) (collectKeys f e) ∧
    List.Perm (collectKeys f e)
      ((e.Data.map Prod.fst).filter (fun k => !(k == "prefix"))) ∧
    (fieldPairs f e).map Prod.fst = collectKeys f e ∧
    (∀ p ∈ plainPairs f e, ∃ t, appendKeyValue p.1 p.2 = t ++ " ") := by
  have hkeys : collectKeys f e =
      List.insertionSort (fun a b : String => a ≤ b)
        ((e.Data.map Prod.fst).filter (fun k => !(k == "prefix"))) := by
    unfold collectKeys
    rw [hsort]
    rfl
  refine ⟨?_, ?_, ?_, ?_, fun p _ => appendKeyValue_trailing p.1 p.2⟩
  · unfold Format
    rw [if_neg (by simp [hcol]), plainFormat_eq_pairs]
  · rw [hkeys]
    exact List.sorted_insertionSort _ _
  · rw [hkeys]
    exact List.perm_insertionSort _ _
  · unfold fieldPairs
    rw [List.map_map]
    exact List.map_id _

/-- C6 witness: the order specification applied to a record with two
unsorted fields. -/
theorem plain_order_spec_witness :
    Format cfgPlain env0 0 eTwoFields =
      some (joinAll ((plainPairs cfgPlain eTwoFields).map
        fun p => appendKeyValue p.1 p.2) ++ "\n") ∧
    List.Sorted (fun a b : String => a ≤ b) (collectKeys cfgPlain eTwoFields) :=
  ⟨(plain_order_spec cfgPlain env0 0 eTwoFields rfl rfl).1,
    (plain_order_spec cfgPlain env0 0 eTwoFields rfl rfl).2.1⟩

theorem field_pair_mem (f : TextFormatter) (e : Entry) (k : String) (v : Value)
    (hv : lookupField e.Data k = some v) (hkp : ¬ k = "prefix")
    (hpre : lookupField (prefixFieldClashes e.Data) k = some v) :
    (k, v) ∈ plainPairs f e := by
  have hmem : k ∈ e.Data.map Prod.fst := by
    rw [← lookupField_isSome_iff, hv]
    rfl
  have hck : k ∈ collectKeys f e := (mem_collectKeys_iff f e k).mpr ⟨hmem, hkp⟩
  have hfp : (k, v) ∈ fieldPairs f e := by
    unfold fieldPairs
    apply List.mem_map.mpr
    refine ⟨k, hck, ?_⟩
    unfold lookupD
    rw [hpre]
    rfl
  unfold plainPairs
  exact List.mem_append.mpr (Or.inr hfp)

theorem field_pair_not_mem (f : TextFormatter) (e : Entry) (k : String)
    (h1 : ¬ k = "time") (h2 : ¬ k = "level") (h3 : ¬ k = "msg")
    (habs : lookupField e.Data k = none) :
    ∀ w, (k, w) ∉ plainPairs f e := by
  intro w hmem
  unfold plainPairs at hmem
  rcases List.mem_append.mp hmem with hmem2 | hfp
  · rcases List.mem_append.mp hmem2 with hmem3 | hmc
    · rcases List.mem_append.mp hmem3 with hma | hmb
      · by_cases hdt : f.DisableTimestamp = true
        · rw [if_pos hdt] at hma
          exact absurd hma (List.not_mem_nil _)
        · rw [if_neg hdt] at hma
          exact h1 (congrArg Prod.fst (List.mem_singleton.mp hma))
      · exact h2 (congrArg Prod.fst (List.mem_singleton.mp hmb))
    · by_cases hme : e.Message = ""
      · rw [if_pos hme] at hmc
        exact absurd hmc (List.not_mem_nil _)
      · rw [if_neg hme] at hmc
        exact h3 (congrArg Prod.fst (List.mem_singleton.mp hmc))
  · unfold fieldPairs at hfp
    rcases List.mem_map.mp hfp with ⟨k2, hk2, heq⟩
    have hkk : k2 = k := congrArg Prod.fst heq
    subst hkk
    have hs : k2 ∈ e.Data.map Prod.fst := ((mem_collectKeys_iff f e k2).mp hk2).1
    rw [← lookupField_isSome_iff, habs] at hs
    cases hs

/-- C1 (corrected/amended): when the input map binds `"time"` (and has no
`"fields.time"` binding of its own), `prefixFieldClashes` does copy the value
onto `"fields.time"` in the mutated map, but the rendering keys were
collected before the copy, so no `"fields.time"` pair is rendered; the plain
line instead renders the record's own timestamp under `"time"` first and the
user value under its original `"time"` key among the fields.  The analogous
facts hold for `"msg"` and `"level"`. -/
theorem clash_time_amended (f : TextFormatter) (env : Env) (now : Nat) (e : Entry)
    (v : Value)
    (hcol : decideColored f env = false)
    (ht : lookupField e.Data "time" = some v)
    (hnf : lookupField e.Data "fields.time" = none)
    (hts : f.DisableTimestamp = false) :
    Format f env now e =
      some (joinAll ((plainPairs f e).map fun p => appendKeyValue p.1 p.2) ++ "\n") ∧
    (plainPairs f e).head? = some ("time", Value.str (e.Time (tsFormatOf f))) ∧
    ("time", v) ∈ plainPairs f e ∧
    (∀ w, ("fields.time", w) ∉ plainPairs f e) ∧
    lookupField (prefixFieldClashes e.Data) "fields.time" = some v ∧
    (∀ vm, lookupField e.Data "msg" = some vm →
      lookupField e.Data "fields.msg" = none →
      ("msg", vm) ∈ plainPairs f e ∧ (∀ w, ("fields.msg", w) ∉ plainPairs f e) ∧
      lookupField (prefixFieldClashes e.Data) "fields.msg" = some vm) ∧
    (∀ vl, lookupField e.Data "level" = some vl →
      lookupField e.Data "fields.level" = none →
      ("level", vl) ∈ plainPairs f e ∧ (∀ w, ("fields.level", w) ∉ plainPairs f e) ∧
      lookupField (prefixFieldClashes e.Data) "fields.level" = some vl) := by
  refine ⟨?_, ?_, ?_, ?_, ?_, ?_, ?_⟩
  · unfold Format
    rw [if_neg (by simp [hcol]), plainFormat_eq_pairs]
  · unfold plainPairs
    rw [if_neg (by simp [hts])]
    rfl
  · refine field_pair_mem f e "time" v ht (by decide) ?_
    rw [pfc_lookup_ne e.Data "time" (by decide) (by decide) (by decide)]
    exact ht
  · exact field_pair_not_mem f e "fields.time" (by decide) (by decide) (by decide) hnf
  · exact pfc_fields_time e.Data v ht
  · intro vm hm hnm
    refine ⟨?_, field_pair_not_mem f e "fields.msg" (by decide) (by decide) (by decide) hnm,
      pfc_fields_msg e.Data vm hm⟩
    refine field_pair_mem f e "msg" vm hm (by decide) ?_
    rw [pfc_lookup_ne e.Data "msg" (by decide) (by decide) (by decide)]
    exact hm
  · intro vl hl hnl
    refine ⟨?_, field_pair_not_mem f e "fields.level" (by decide) (by decide) (by decide) hnl,
      pfc_fields_level e.Data vl hl⟩
    refine field_pair_mem f e "level" vl hl (by decide) ?_
    rw [pfc_lookup_ne e.Data "level" (by decide) (by decide) (by decide)]
    exact hl

/-- C1 witness: the amended statement applied at the concrete clash record. -/
theorem clash_time_amended_witness :
    ("time", Value.str "X") ∈ plainPairs cfgPlain eClash ∧
    (∀ w, ("fields.time", w) ∉ plainPairs cfgPlain eClash) ∧
    lookupField (prefixFieldClashes eClash.Data) "fields.time" = some (Value.str "X") := by
  have h := clash_time_amended cfgPlain env0 0 eClash (Value.str "X") rfl rfl rfl rfl
  exact ⟨h.2.2.1, h.2.2.2.1, h.2.2.2.2.1⟩

/-- C1 counterexample: for a record whose fields bind `"time"` to `"X"`, the
plain-mode line contains no `"fields.time"` pair at all — the key collection
ran before the clash copy — even though the map after the call does hold
`fields.time = X`; the value is instead rendered under the original `"time"`
key, after the synthesized timestamp pair. -/
theorem clash_fields_time_not_rendered :
    Format cfgPlain env0 0 eClash = some "time=T0 level=info msg=hi time=X \n" ∧
    containsSeg ("time=T0 level=info msg=hi time=X \n").toList ("fields.time").toList = false ∧
    lookupField (prefixFieldClashes eClash.Data) "fields.time" = some (Value.str "X") :=
  ⟨by decide, by decide, by decide⟩
